import Mathlib

/-!
Shallow embedding of the m3u8 download / merge / split pipeline
(src/bot.py, src/utils/downloader.py, src/utils/video_processor.py,
src/utils/helpers.py) and proofs about its specification.

Strings are modelled as lists of characters compared by code point,
matching Python string semantics (ASCII approximation for case folding
and whitespace).  Python floats are idealised as rationals.
-/

/-- Decimal digit character, as produced by Python integer formatting:
code point 48 + d for a digit d. -/
def digitChar (d : Nat) : Char := Char.ofNat (48 + d)

/-- Fuel-driven decimal digit expansion of a natural number, most
significant digit first; embeds Python's decimal repr of a nonnegative int. -/
def natDigitsAux : Nat → Nat → List Char
  | 0, _ => []
  | fuel + 1, n =>
    if n < 10 then [digitChar n]
    else natDigitsAux fuel (n / 10) ++ [digitChar (n % 10)]

/-- Decimal digits of a natural number (fuel n + 1 always suffices). -/
def natDigits (n : Nat) : List Char := natDigitsAux (n + 1) n

/-- Python zero padding to a minimum width, as in the format specs
04d and 02d: longer representations are kept whole. -/
def zfill (w : Nat) (s : List Char) : List Char :=
  List.replicate (w - s.length) '0' ++ s

/-- The four decimal digits of a number below 10000, written directly. -/
def fourDigits (i : Nat) : List Char :=
  [digitChar (i / 1000 % 10), digitChar (i / 100 % 10),
   digitChar (i / 10 % 10), digitChar (i % 10)]

/-- Lexicographic strict comparison of character lists by code point:
the order Python uses to compare and sort strings. -/
def lexLt : List Char → List Char → Bool
  | _, [] => false
  | [], _ :: _ => true
  | a :: as, b :: bs =>
    if a.toNat < b.toNat then true
    else if b.toNat < a.toNat then false
    else lexLt as bs

/-- Segment file name generated by download_m3u8 for playlist index i
(downloader.py line 74: segment_{i:04d}.ts). -/
def segmentFilename (i : Nat) : List Char :=
  "segment_".data ++ zfill 4 (natDigits i) ++ ".ts".data

/-- The ordered list of segment file paths produced for an n-segment
playlist (downloader.py lines 72-78: one file per index, in order). -/
def segmentFiles (n : Nat) : List (List Char) :=
  (List.range n).map segmentFilename

/-- Embedding of M3U8Downloader.download_m3u8: an empty playlist raises
ValueError, otherwise one segment file per playlist entry is downloaded
sequentially and its path appended in playlist order. -/
def downloadM3u8 (segments : List (List Char)) :
    Except (List Char) (List (List Char)) :=
  if segments.isEmpty then .error "No segments found in M3U8 playlist".data
  else .ok (segmentFiles segments.length)

theorem natDigitsAux_congr :
    ∀ f1 f2 n : Nat, n < f1 → n < f2 → natDigitsAux f1 n = natDigitsAux f2 n := by
  intro f1
  induction f1 with
  | zero => intro f2 n h1 _; omega
  | succ f ih =>
    intro f2 n h1 h2
    cases f2 with
    | zero => omega
    | succ g =>
      simp only [natDigitsAux]
      by_cases h : n < 10
      · simp [h]
      · have hd : n / 10 < n := Nat.div_lt_self (by omega) (by omega)
        simp only [if_neg h]
        rw [ih g (n / 10) (by omega) (by omega)]

theorem natDigits_lt10 (n : Nat) (h : n < 10) : natDigits n = [digitChar n] := by
  simp [natDigits, natDigitsAux, h]

theorem natDigits_ge10 (n : Nat) (h : 10 ≤ n) :
    natDigits n = natDigits (n / 10) ++ [digitChar (n % 10)] := by
  have hd : n / 10 < n := Nat.div_lt_self (by omega) (by omega)
  show natDigitsAux (n + 1) n = natDigitsAux (n / 10 + 1) (n / 10) ++ [digitChar (n % 10)]
  rw [natDigitsAux, if_neg (by omega : ¬ n < 10),
    natDigitsAux_congr n (n / 10 + 1) (n / 10) hd (Nat.lt_succ_self _)]

theorem digitChar_toNat : ∀ d < 10, (digitChar d).toNat = 48 + d := by decide

theorem zfill_natDigits_four :
    ∀ i : Nat, i < 10000 → zfill 4 (natDigits i) = fourDigits i := by
  intro i hi
  by_cases h1 : i < 10
  · have e3 : i / 1000 % 10 = 0 := by omega
    have e2 : i / 100 % 10 = 0 := by omega
    have e1 : i / 10 % 10 = 0 := by omega
    have e0 : i % 10 = i := by omega
    have d0 : digitChar 0 = '0' := by decide
    rw [natDigits_lt10 i h1]
    simp [zfill, fourDigits, e3, e2, e1, e0, d0, List.replicate]
  · by_cases h2 : i < 100
    · have e3 : i / 1000 % 10 = 0 := by omega
      have e2 : i / 100 % 10 = 0 := by omega
      have e1 : i / 10 % 10 = i / 10 := by omega
      have d0 : digitChar 0 = '0' := by decide
      rw [natDigits_ge10 i (by omega), natDigits_lt10 (i / 10) (by omega)]
      simp [zfill, fourDigits, e3, e2, e1, d0, List.replicate]
    · by_cases h3 : i < 1000
      · have e3 : i / 1000 % 10 = 0 := by omega
        have e2 : i / 100 % 10 = i / 100 := by omega
        have d0 : digitChar 0 = '0' := by decide
        have hdd : i / 10 / 10 = i / 100 := by omega
        rw [natDigits_ge10 i (by omega), natDigits_ge10 (i / 10) (by omega), hdd,
          natDigits_lt10 (i / 100) (by omega)]
        simp [zfill, fourDigits, e3, e2, d0, List.replicate]
      · have e3 : i / 1000 % 10 = i / 1000 := by omega
        have hdd1 : i / 10 / 10 = i / 100 := by omega
        have hdd2 : i / 100 / 10 = i / 1000 := by omega
        rw [natDigits_ge10 i (by omega), natDigits_ge10 (i / 10) (by omega), hdd1,
          natDigits_ge10 (i / 100) (by omega), hdd2,
          natDigits_lt10 (i / 1000) (by omega)]
        simp [zfill, fourDigits, e3, List.replicate]

theorem lexLt_same_append (p xs ys : List Char) :
    lexLt (p ++ xs) (p ++ ys) = lexLt xs ys := by
  induction p with
  | nil => rfl
  | cons c p ih =>
    simp only [List.cons_append, lexLt]
    rw [if_neg (Nat.lt_irrefl _), if_neg (Nat.lt_irrefl _)]
    exact ih

theorem lexLt_append_of_length_eq (xs ys as bs : List Char)
    (hlen : xs.length = ys.length) (h : lexLt xs ys = true) :
    lexLt (xs ++ as) (ys ++ bs) = true := by
  induction xs generalizing ys with
  | nil =>
    cases ys with
    | nil => simp [lexLt] at h
    | cons y ys => simp at hlen
  | cons x xs ih =>
    cases ys with
    | nil => simp at hlen
    | cons y ys =>
      simp only [lexLt, List.cons_append] at h ⊢
      by_cases h1 : x.toNat < y.toNat
      · simp [h1]
      · by_cases h2 : y.toNat < x.toNat
        · simp [h1, h2] at h
        · simp only [if_neg h1, if_neg h2] at h ⊢
          exact ih ys (by simpa using hlen) h

theorem fourDigits_lexLt (i j : Nat) (hij : i < j) (hj : j < 10000) :
    lexLt (fourDigits i) (fourDigits j) = true := by
  simp only [fourDigits, lexLt]
  rw [digitChar_toNat (i / 1000 % 10) (by omega), digitChar_toNat (j / 1000 % 10) (by omega),
    digitChar_toNat (i / 100 % 10) (by omega), digitChar_toNat (j / 100 % 10) (by omega),
    digitChar_toNat (i / 10 % 10) (by omega), digitChar_toNat (j / 10 % 10) (by omega),
    digitChar_toNat (i % 10) (by omega), digitChar_toNat (j % 10) (by omega)]
  split_ifs <;> first | rfl | (exfalso; omega)

theorem segmentFilename_lexLt (i j : Nat) (hij : i < j) (hj : j < 10000) :
    lexLt (segmentFilename i) (segmentFilename j) = true := by
  simp only [segmentFilename, List.append_assoc]
  rw [lexLt_same_append]
  rw [zfill_natDigits_four i (by omega), zfill_natDigits_four j hj]
  exact lexLt_append_of_length_eq _ _ _ _ rfl (fourDigits_lexLt i j hij hj)

/-- C1 (counterexample): in a playlist of 10001 segments, indices 9999 and
10000 are both valid, yet the generated filename for index 9999 does not
compare lexicographically below the one for index 10000 (the 4-digit zero
padding overflows), so sorting the filenames cannot reproduce playlist
order for playlists of arbitrary length. -/
theorem c1_counterexample :
    (segmentFiles 10001).length = 10001 ∧ 9999 < 10000 ∧ 10000 < 10001 ∧
      lexLt (segmentFilename 9999) (segmentFilename 10000) = false := by
  refine ⟨?_, by decide, by decide, by decide⟩
  simp [segmentFiles]

/-- C1 (amended): for every valid non-empty playlist of at most 10000
segments, download_m3u8 returns exactly one downloaded segment path per
playlist segment, and the generated filenames are strictly increasing in
lexicographic order, so sorting them by filename yields exactly the
playlist order. -/
theorem c1_download_order (segments : List (List Char))
    (hne : segments ≠ []) (hlen : segments.length ≤ 10000) :
    downloadM3u8 segments = .ok (segmentFiles segments.length) ∧
    (segmentFiles segments.length).length = segments.length ∧
    (segmentFiles segments.length).Pairwise (fun a b => lexLt a b = true) := by
  refine ⟨?_, ?_, ?_⟩
  · simp [downloadM3u8, hne]
  · simp [segmentFiles]
  · rw [List.pairwise_iff_getElem]
    intro i j hi hj hij
    simp only [segmentFiles, List.length_map, List.length_range] at hi hj
    simp only [segmentFiles, List.getElem_map, List.getElem_range]
    exact segmentFilename_lexLt i j hij (by omega)

/-- Witness for the amended C1 theorem at a concrete 3-segment playlist. -/
theorem c1_download_order_witness :
    downloadM3u8 ["u1".data, "u2".data, "u3".data] = .ok (segmentFiles 3) ∧
    (segmentFiles 3).length = 3 ∧
    (segmentFiles 3).Pairwise (fun a b => lexLt a b = true) :=
  c1_download_order ["u1".data, "u2".data, "u3".data] (by decide) (by decide)

/-- Retry loop of M3U8Downloader._download_segment (downloader.py 102-122),
re-indexed by the number of attempts still allowed: r = max_retries minus
retry_count (so the loop guard retry_count < max_retries becomes r > 0 and
the raise condition retry_count + 1 >= max_retries becomes r = 1).
fetch a = none means attempt a succeeds; some e means it raises e.
The result records (raised error if any, attempts made, number of
one-second sleeps between attempts). -/
def dlLoop {E : Type} (fetch : Nat → Option E) (r a s : Nat) :
    Option E × Nat × Nat :=
  if r = 0 then (none, a, s)
  else
    match fetch a with
    | none => (none, a + 1, s)
    | some e =>
      if r = 1 then (some e, a + 1, s)
      else dlLoop fetch (r - 1) (a + 1) (s + 1)
termination_by r
decreasing_by omega

/-- One call of _download_segment: max_retries = 3, starting with zero
attempts made and zero sleeps taken. -/
def downloadSegment {E : Type} (fetch : Nat → Option E) : Option E × Nat × Nat :=
  dlLoop fetch 3 0 0

/-- C2: _download_segment retries with a one-second sleep between attempts
up to 3 attempts in total: a segment failing on the first two attempts and
succeeding on the third completes successfully after 3 attempts and 2
sleeps; a segment that always fails makes exactly 3 attempts and 2 sleeps
and raises the error of the last attempt. -/
theorem c2_retry_behavior {E : Type} (f g : Nat → Option E) (e0 e1 : E)
    (es : Nat → E) (h0 : f 0 = some e0) (h1 : f 1 = some e1) (h2 : f 2 = none)
    (hg : ∀ k, g k = some (es k)) :
    downloadSegment f = (none, 3, 2) ∧ downloadSegment g = (some (es 2), 3, 2) := by
  constructor
  · simp [downloadSegment, dlLoop, h0, h1, h2]
  · simp [downloadSegment, dlLoop, hg]

/-- Witness for C2 at concrete fetch oracles. -/
theorem c2_retry_behavior_witness :
    downloadSegment (fun k => if k < 2 then some k else none) = (none, 3, 2) ∧
    downloadSegment (fun k : Nat => some k) = (some 2, 3, 2) :=
  c2_retry_behavior (fun k => if k < 2 then some k else none) (fun k => some k)
    0 1 (fun k => k) rfl rfl rfl (fun _ => rfl)

/-- Filesystem operations the download code can perform on segment files. -/
inductive FsOp where
  | openTrunc : List Char → FsOp
  | writeChunk : List Nat → FsOp
  | rename : List Char → List Char → FsOp
deriving DecidableEq

/-- Filesystem operations performed by one attempt of _download_segment
(downloader.py 110-112): the destination path itself is opened in mode wb
(truncating) and each fetched chunk is written to it in turn.
failAfter = some k models the stream raising after k chunks were written.
The code contains no temporary file and no rename. -/
def segmentAttemptOps (filepath : List Char) (chunks : List (List Nat))
    (failAfter : Option Nat) : List FsOp :=
  FsOp.openTrunc filepath ::
    (match failAfter with
      | none => chunks
      | some k => chunks.take k).map FsOp.writeChunk

/-- Byte content observable at the destination path after one attempt:
opening in mode wb truncates, then the fetched chunks are appended in
order, so a failed attempt leaves the prefix written so far. -/
def destContentAfterAttempt (chunks : List (List Nat)) (failAfter : Option Nat) :
    Option (List Nat) :=
  some (match failAfter with
    | none => chunks.flatten
    | some k => (chunks.take k).flatten)

def isRenameOp : FsOp → Bool
  | .rename _ _ => true
  | _ => false

/-- Number of rename operations in a filesystem trace. -/
def renameCount (ops : List FsOp) : Nat := (ops.filter isRenameOp).length

theorem filter_isRename_writeChunk (cs : List (List Nat)) :
    (cs.map FsOp.writeChunk).filter isRenameOp = [] := by
  induction cs with
  | nil => rfl
  | cons c cs ih => simp [isRenameOp, ih]

/-- C3 (counterexample): a concrete attempt that fetches chunk [1] and then
fails leaves the destination path holding the partial content [1] — a
partially written file is observable under the destination name — and the
attempt performs no rename (hence no temporary-name-then-rename step). -/
theorem c3_counterexample :
    destContentAfterAttempt [[1], [2]] (some 1) = some [1] ∧
    destContentAfterAttempt [[1], [2]] (some 1) ≠ none ∧
    renameCount (segmentAttemptOps "seg.ts".data [[1], [2]] (some 1)) = 0 := by
  refine ⟨by decide, by decide, ?_⟩
  simp [renameCount, segmentAttemptOps, isRenameOp, filter_isRename_writeChunk]

/-- C3 (amended): _download_segment does not use a temporary name plus
rename; every attempt opens the destination path directly with truncation
and streams chunks into it, performing zero renames; an attempt that fails
after k chunks leaves the destination holding exactly the concatenation of
the first k chunks (a partial file), while a successful attempt leaves the
full content. -/
theorem c3_direct_write (fp : List Char) (chunks : List (List Nat)) (k : Nat) :
    renameCount (segmentAttemptOps fp chunks (some k)) = 0 ∧
    renameCount (segmentAttemptOps fp chunks none) = 0 ∧
    destContentAfterAttempt chunks (some k) = some ((chunks.take k).flatten) ∧
    destContentAfterAttempt chunks none = some chunks.flatten := by
  have hcons : ∀ (p : List Char) (l : List (List Nat)),
      renameCount (FsOp.openTrunc p :: l.map FsOp.writeChunk) = 0 := by
    intro p l
    show ((FsOp.openTrunc p :: l.map FsOp.writeChunk).filter isRenameOp).length = 0
    rw [List.filter_cons_of_neg (by simp [isRenameOp]), filter_isRename_writeChunk l]
    rfl
  exact ⟨hcons fp (chunks.take k), hcons fp chunks, rfl, rfl⟩

/-- Embedding of VideoProcessor._get_video_duration (video_processor.py
175-210): ffprobe is run; probeExit is its return code and probeOut the
parse of its stdout as a float (none when float() would raise).  A zero
exit with parsable output yields that duration; a non-zero exit returns
the default 3600.0; an unparsable stdout raises inside the try block and
the handler returns the default 3600.0. -/
def getVideoDuration (probeExit : Nat) (probeOut : Option ℚ) : ℚ :=
  if probeExit = 0 then
    match probeOut with
    | some d => d
    | none => 3600
  else 3600

/-- part_size = max_size - (10 * 1024 * 1024), a Python int subtraction
(video_processor.py line 132). -/
def partSizeOf (maxSize : Nat) : ℤ := (maxSize : ℤ) - 10 * 1024 * 1024

/-- num_parts = math.ceil(file_size / part_size) (video_processor.py line
133), with Python float division idealised as exact rational division. -/
def numPartsOf (fileSize maxSize : Nat) : ℤ :=
  ⌈(fileSize : ℚ) / ((partSizeOf maxSize : ℤ) : ℚ)⌉

/-- Python os.path.splitext applied to a bare filename: the extension
starts at the last dot, except that a name whose characters before that
dot are all dots has no extension.  Returns the root (extension removed).
(The base filenames reaching this code contain no path separator: user
names are sanitised first and generated names are timestamp-based.) -/
def splitextRoot (p : List Char) : List Char :=
  match (p.reverse.findIdx? (fun c => c = '.')) with
  | none => p
  | some k =>
    let d := p.length - 1 - k
    if (p.take d).all (fun c => c = '.') then p else p.take d

/-- Part file name f-string from video_processor.py line 143:
base_name + _part + (i+1 zero-padded to width 2) + .mp4. -/
def partFilename (baseName : List Char) (i : Nat) : List Char :=
  baseName ++ "_part".data ++ zfill 2 (natDigits (i + 1)) ++ ".mp4".data

/-- One ffmpeg extraction invocation of the split loop (video_processor.py
147-156): seek position -ss, extent -t, and output file name. -/
structure ExtractCmd where
  start : ℚ
  dur : ℚ
  outName : List Char
deriving DecidableEq

/-- The sequence of ffmpeg extraction commands the split loop issues:
part i is extracted starting at i * partDuration with extent partDuration
into its numbered file, for every i in range numParts. -/
def splitCmds (baseName : List Char) (partDuration : ℚ) (numParts : Nat) :
    List ExtractCmd :=
  (List.range numParts).map
    (fun i : Nat => ⟨(i : ℚ) * partDuration, partDuration, partFilename baseName i⟩)

/-- The parts list the split loop accumulates (video_processor.py 141-167):
starting from [], each index whose extraction succeeded and whose output
file exists appends its part path; failed indices are skipped silently. -/
def splitPartsList (baseName : List Char) (extractOk : Nat → Bool)
    (numParts : Nat) : List (List Char) :=
  (List.range numParts).foldl
    (fun acc i => if extractOk i then acc ++ [partFilename baseName i] else acc) []

/-- Result of one split_large_file call: the returned part paths, the
extraction commands issued, and how many duration probes ran. -/
structure SplitResult where
  parts : List (List Char)
  cmds : List ExtractCmd
  probeCalls : Nat
deriving DecidableEq

/-- Embedding of VideoProcessor.split_large_file (video_processor.py
103-173).  A file of size at most max_size is returned unchanged with no
subprocess started.  Otherwise num_parts = ceil(file_size / part_size) is
computed, the duration is probed once, part_duration = duration/num_parts,
and the loop issues one extraction command per index, keeping the paths of
the successful ones; extractOk i models (returncode == 0 and the output
file exists) for part index i.  The loop raises nothing, so the call
always returns normally. -/
def splitLargeFile (filePath : List Char) (fileSize : Nat)
    (baseFilename : List Char) (maxSize : Nat) (probeExit : Nat)
    (probeOut : Option ℚ) (extractOk : Nat → Bool) :
    Except Unit SplitResult :=
  if fileSize ≤ maxSize then .ok ⟨[filePath], [], 0⟩
  else
    let numParts : ℤ := numPartsOf fileSize maxSize
    let duration : ℚ := getVideoDuration probeExit probeOut
    let partDuration : ℚ := duration / (numParts : ℚ)
    let baseName : List Char := splitextRoot baseFilename
    .ok ⟨splitPartsList baseName extractOk numParts.toNat,
         splitCmds baseName partDuration numParts.toNat, 1⟩

/-- Parts list of a split result (empty for the error case). -/
def resultParts (r : Except Unit SplitResult) : List (List Char) :=
  match r with
  | .ok s => s.parts
  | .error _ => []

/-- Extraction commands of a split result (empty for the error case). -/
def resultCmds (r : Except Unit SplitResult) : List ExtractCmd :=
  match r with
  | .ok s => s.cmds
  | .error _ => []

/-- Whether the call returned normally. -/
def resultIsOk (r : Except Unit SplitResult) : Bool :=
  match r with
  | .ok _ => true
  | .error _ => false

theorem splitPartsList_eq (baseName : List Char) (extractOk : Nat → Bool)
    (numParts : Nat) :
    splitPartsList baseName extractOk numParts =
      ((List.range numParts).filter extractOk).map (partFilename baseName) := by
  have key : ∀ (l : List Nat) (acc : List (List Char)),
      l.foldl (fun acc i =>
        if extractOk i then acc ++ [partFilename baseName i] else acc) acc =
      acc ++ (l.filter extractOk).map (partFilename baseName) := by
    intro l
    induction l with
    | nil => intro acc; simp
    | cons x l ih =>
      intro acc
      by_cases hx : extractOk x
      · simp [List.foldl_cons, List.filter_cons, hx, ih, List.append_assoc]
      · simp [List.foldl_cons, List.filter_cons, hx, ih]
  simpa using key (List.range numParts) []

theorem numPartsOf_eq_ceil (fs ms : Nat) :
    numPartsOf fs ms = ⌈(fs : ℚ) / ((ms : ℚ) - 10 * 1024 * 1024)⌉ := by
  unfold numPartsOf partSizeOf
  congr 1
  push_cast
  ring

theorem numPartsOf_pos (fs ms : Nat) (hm : 10 * 1024 * 1024 < ms)
    (hs : ms < fs) : 0 < numPartsOf fs ms := by
  have h1 : (0 : ℚ) < (fs : ℚ) := by exact_mod_cast (by omega : 0 < fs)
  have h2 : (0 : ℚ) < ((partSizeOf ms : ℤ) : ℚ) := by
    unfold partSizeOf
    push_cast
    have : ((10 : ℚ) * 1024 * 1024) < (ms : ℚ) := by exact_mod_cast hm
    linarith
  exact Int.ceil_pos.mpr (div_pos h1 h2)

/-- C6: when the merged file size is at most the configured ceiling,
split_large_file returns exactly the original file path unchanged and
starts no subprocess: no duration probe and no extraction command. -/
theorem c6_no_split (fp base : List Char) (fileSize maxSize probeExit : Nat)
    (probeOut : Option ℚ) (ok : Nat → Bool) (h : fileSize ≤ maxSize) :
    splitLargeFile fp fileSize base maxSize probeExit probeOut ok =
      .ok ⟨[fp], [], 0⟩ := by
  simp [splitLargeFile, h]

/-- Witness for C6 at a concrete small file. -/
theorem c6_no_split_witness :
    splitLargeFile "merged.mp4".data 1000 "video.mp4".data 2048 0 (some 60)
      (fun _ => true) = .ok ⟨["merged.mp4".data], [], 0⟩ :=
  c6_no_split "merged.mp4".data "video.mp4".data 1000 2048 0 (some 60)
    (fun _ => true) (by decide)

/-- C5: for a merged file strictly larger than the ceiling, the split loop
issues partCount = ceil(S / (C - M)) extraction commands, with the safety
margin M = 10 MiB, part duration totalDuration / partCount, and the i-th
command starting at i * partDuration with extent partDuration. -/
theorem c5_part_math (fp base : List Char) (fileSize maxSize probeExit : Nat)
    (probeOut : Option ℚ) (ok : Nat → Bool)
    (hm : 10 * 1024 * 1024 < maxSize) (hs : maxSize < fileSize) :
    (resultCmds (splitLargeFile fp fileSize base maxSize probeExit probeOut ok)).length =
      (⌈(fileSize : ℚ) / ((maxSize : ℚ) - 10 * 1024 * 1024)⌉).toNat ∧
    ∀ i : Nat, i < (⌈(fileSize : ℚ) / ((maxSize : ℚ) - 10 * 1024 * 1024)⌉).toNat →
      (resultCmds (splitLargeFile fp fileSize base maxSize probeExit probeOut ok))[i]? =
        some ⟨(i : ℚ) * (getVideoDuration probeExit probeOut /
            (((⌈(fileSize : ℚ) / ((maxSize : ℚ) - 10 * 1024 * 1024)⌉).toNat : Nat) : ℚ)),
          getVideoDuration probeExit probeOut /
            (((⌈(fileSize : ℚ) / ((maxSize : ℚ) - 10 * 1024 * 1024)⌉).toNat : Nat) : ℚ),
          partFilename (splitextRoot base) i⟩ := by
  have hnotle : ¬ fileSize ≤ maxSize := by omega
  have hpos : 0 < numPartsOf fileSize maxSize := numPartsOf_pos fileSize maxSize hm hs
  have hN : ⌈(fileSize : ℚ) / ((maxSize : ℚ) - 10 * 1024 * 1024)⌉ =
      numPartsOf fileSize maxSize := (numPartsOf_eq_ceil fileSize maxSize).symm
  have hcast : (((numPartsOf fileSize maxSize).toNat : Nat) : ℚ) =
      ((numPartsOf fileSize maxSize : ℤ) : ℚ) := by
    exact_mod_cast congrArg (fun z : ℤ => (z : ℚ)) (Int.toNat_of_nonneg hpos.le)
  have hrc : resultCmds (splitLargeFile fp fileSize base maxSize probeExit probeOut ok) =
      splitCmds (splitextRoot base)
        (getVideoDuration probeExit probeOut / ((numPartsOf fileSize maxSize : ℤ) : ℚ))
        (numPartsOf fileSize maxSize).toNat := by
    simp [splitLargeFile, hnotle, resultCmds]
  simp only [hN, hrc, hcast]
  constructor
  · simp [splitCmds]
  · intro i hi
    simp [splitCmds, List.getElem?_map, List.getElem?_range, hi]

/-- Witness for C5 at a concrete oversized file. -/
theorem c5_part_math_witness :
    (resultCmds (splitLargeFile "m.mp4".data 16485761 "v.mp4".data 16485760 0
        (some 100) (fun _ => true))).length =
      (⌈((16485761 : Nat) : ℚ) / (((16485760 : Nat) : ℚ) - 10 * 1024 * 1024)⌉).toNat ∧
    ∀ i : Nat, i < (⌈((16485761 : Nat) : ℚ) /
        (((16485760 : Nat) : ℚ) - 10 * 1024 * 1024)⌉).toNat →
      (resultCmds (splitLargeFile "m.mp4".data 16485761 "v.mp4".data 16485760 0
          (some 100) (fun _ => true)))[i]? =
        some ⟨(i : ℚ) * (getVideoDuration 0 (some 100) /
            (((⌈((16485761 : Nat) : ℚ) /
              (((16485760 : Nat) : ℚ) - 10 * 1024 * 1024)⌉).toNat : Nat) : ℚ)),
          getVideoDuration 0 (some 100) /
            (((⌈((16485761 : Nat) : ℚ) /
              (((16485760 : Nat) : ℚ) - 10 * 1024 * 1024)⌉).toNat : Nat) : ℚ),
          partFilename (splitextRoot "v.mp4".data) i⟩ :=
  c5_part_math "m.mp4".data "v.mp4".data 16485761 16485760 0 (some 100)
    (fun _ => true) (by decide) (by decide)

/-- C7: when the duration probe exits non-zero or its stdout is not
parsable as a number, _get_video_duration does not fail and returns the
fixed default of 3600 seconds, and split_large_file proceeds to issue its
extraction commands using that default duration. -/
theorem c7_duration_fallback (probeExit : Nat) (probeOut : Option ℚ)
    (h : probeExit ≠ 0 ∨ probeOut = none) :
    getVideoDuration probeExit probeOut = 3600 ∧
    ∀ (fp base : List Char) (fs ms : Nat) (ok : Nat → Bool), ms < fs →
      resultCmds (splitLargeFile fp fs base ms probeExit probeOut ok) =
        splitCmds (splitextRoot base)
          (3600 / ((numPartsOf fs ms : ℤ) : ℚ)) (numPartsOf fs ms).toNat := by
  have hd : getVideoDuration probeExit probeOut = 3600 := by
    rcases h with h | h
    · simp [getVideoDuration, h]
    · subst h
      unfold getVideoDuration
      split <;> rfl
  refine ⟨hd, ?_⟩
  intro fp base fs ms ok hlt
  have hnotle : ¬ fs ≤ ms := by omega
  simp [splitLargeFile, hnotle, resultCmds, hd]

/-- Witness for C7 with a failing probe exit code. -/
theorem c7_duration_fallback_witness :
    getVideoDuration 1 (some 5) = 3600 ∧
    resultCmds (splitLargeFile "m.mp4".data 16485761 "v.mp4".data 16485760 1
        (some 5) (fun _ => true)) =
      splitCmds (splitextRoot "v.mp4".data)
        (3600 / ((numPartsOf 16485761 16485760 : ℤ) : ℚ))
        (numPartsOf 16485761 16485760).toNat :=
  ⟨(c7_duration_fallback 1 (some 5) (Or.inl (by decide))).1,
   (c7_duration_fallback 1 (some 5) (Or.inl (by decide))).2
     "m.mp4".data "v.mp4".data 16485761 16485760 (fun _ => true) (by decide)⟩

/-- C4 (counterexample): a concrete oversized merged file (size 16485761,
ceiling 16485760, so three parts are planned) for which every part
extraction fails makes split_large_file return normally with an empty
parts list — no fatal error is raised on total failure. -/
theorem c4_counterexample :
    resultIsOk (splitLargeFile "merged.mp4".data 16485761 "video.mp4".data
      16485760 0 (some 100) (fun _ => false)) = true ∧
    resultParts (splitLargeFile "merged.mp4".data 16485761 "video.mp4".data
      16485760 0 (some 100) (fun _ => false)) = [] ∧
    0 < (resultCmds (splitLargeFile "merged.mp4".data 16485761 "video.mp4".data
      16485760 0 (some 100) (fun _ => false))).length := by
  refine ⟨?_, ?_, ?_⟩
  · simp [splitLargeFile, resultIsOk]
  · simp [splitLargeFile, resultParts, splitPartsList_eq]
  · have hm : 10 * 1024 * 1024 < 16485760 := by norm_num
    have hs : 16485760 < 16485761 := by norm_num
    have hpos := numPartsOf_pos 16485761 16485760 hm hs
    simp [splitLargeFile, resultCmds, splitCmds]
    omega

/-- C4 (amended): split_large_file never raises on part-extraction
failure: every call returns normally, failed parts are silently dropped,
and in particular when every extraction fails the returned list is simply
empty — total failure is not distinguished from partial failure by an
error. -/
theorem c4_total_failure_empty (fp base : List Char) (fs ms probeExit : Nat)
    (probeOut : Option ℚ) (ok : Nat → Bool) (hfail : ∀ i, ok i = false) :
    resultIsOk (splitLargeFile fp fs base ms probeExit probeOut ok) = true ∧
    (ms < fs → resultParts (splitLargeFile fp fs base ms probeExit probeOut ok) = []) := by
  constructor
  · by_cases h : fs ≤ ms <;> simp [splitLargeFile, h, resultIsOk]
  · intro hlt
    have hnotle : ¬ fs ≤ ms := by omega
    simp [splitLargeFile, hnotle, resultParts, splitPartsList_eq, hfail]

/-- Witness for the amended C4 theorem at a concrete all-failing split. -/
theorem c4_total_failure_empty_witness :
    resultIsOk (splitLargeFile "merged.mp4".data 16485761 "video.mp4".data
      16485760 0 (some 100) (fun _ => false)) = true ∧
    (16485760 < 16485761 →
      resultParts (splitLargeFile "merged.mp4".data 16485761 "video.mp4".data
        16485760 0 (some 100) (fun _ => false)) = []) :=
  c4_total_failure_empty "merged.mp4".data "video.mp4".data 16485761 16485760 0
    (some 100) (fun _ => false) (fun _ => rfl)

/-- C10: whenever a split is actually performed, the returned list is
exactly the part filenames of the indices whose extraction succeeded, in
increasing index order; its length is at most
partCount = ceil(size / (maxSize - 10 MiB)); and each surviving part keeps
the part number of its original index (a dropped index leaves a gap, later
parts are not renumbered). -/
theorem c10_parts_structure (fp base : List Char) (fs ms probeExit : Nat)
    (probeOut : Option ℚ) (ok : Nat → Bool) (hs : ms < fs) :
    resultParts (splitLargeFile fp fs base ms probeExit probeOut ok) =
      ((List.range (numPartsOf fs ms).toNat).filter ok).map
        (partFilename (splitextRoot base)) ∧
    (resultParts (splitLargeFile fp fs base ms probeExit probeOut ok)).length ≤
      (⌈(fs : ℚ) / ((ms : ℚ) - 10 * 1024 * 1024)⌉).toNat ∧
    ((List.range (numPartsOf fs ms).toNat).filter ok).Pairwise (· < ·) := by
  have hnotle : ¬ fs ≤ ms := by omega
  have hp : resultParts (splitLargeFile fp fs base ms probeExit probeOut ok) =
      ((List.range (numPartsOf fs ms).toNat).filter ok).map
        (partFilename (splitextRoot base)) := by
    simp [splitLargeFile, hnotle, resultParts, splitPartsList_eq]
  refine ⟨hp, ?_, (List.pairwise_lt_range _).filter ok⟩
  rw [hp, List.length_map, ← numPartsOf_eq_ceil]
  exact le_trans (List.length_filter_le _ _) (by simp)

/-- Witness for C10 where the middle one of three parts fails. -/
theorem c10_parts_structure_witness :
    resultParts (splitLargeFile "m.mp4".data 16485761 "v.mp4".data 16485760 0
        (some 100) (fun i => i ≠ 1)) =
      ((List.range (numPartsOf 16485761 16485760).toNat).filter (fun i => i ≠ 1)).map
        (partFilename (splitextRoot "v.mp4".data)) ∧
    (resultParts (splitLargeFile "m.mp4".data 16485761 "v.mp4".data 16485760 0
        (some 100) (fun i => i ≠ 1))).length ≤
      (⌈((16485761 : Nat) : ℚ) / (((16485760 : Nat) : ℚ) - 10 * 1024 * 1024)⌉).toNat ∧
    ((List.range (numPartsOf 16485761 16485760).toNat).filter
      (fun i => i ≠ 1)).Pairwise (· < ·) :=
  c10_parts_structure "m.mp4".data "v.mp4".data 16485761 16485760 0 (some 100)
    (fun i => i ≠ 1) (by decide)

/-- C8: every extraction command of a performed split names its output
file baseName_part(i+1 zero-padded to two digits).mp4, where baseName is
the output base filename with its extension removed; in particular parts
0 and 1 are named base_part01.mp4 and base_part02.mp4. -/
theorem c8_part_naming (fp base : List Char) (fs ms probeExit : Nat)
    (probeOut : Option ℚ) (ok : Nat → Bool) (hs : ms < fs) :
    (∀ i : Nat, i < (resultCmds (splitLargeFile fp fs base ms probeExit probeOut ok)).length →
      ((resultCmds (splitLargeFile fp fs base ms probeExit probeOut ok))[i]?).map
          ExtractCmd.outName =
        some (splitextRoot base ++ "_part".data ++ zfill 2 (natDigits (i + 1)) ++
          ".mp4".data)) ∧
    partFilename (splitextRoot base) 0 = splitextRoot base ++ "_part01.mp4".data ∧
    partFilename (splitextRoot base) 1 = splitextRoot base ++ "_part02.mp4".data := by
  have hnotle : ¬ fs ≤ ms := by omega
  have hrc : resultCmds (splitLargeFile fp fs base ms probeExit probeOut ok) =
      splitCmds (splitextRoot base)
        (getVideoDuration probeExit probeOut / ((numPartsOf fs ms : ℤ) : ℚ))
        (numPartsOf fs ms).toNat := by
    simp [splitLargeFile, hnotle, resultCmds]
  refine ⟨?_, ?_, ?_⟩
  · intro i hi
    rw [hrc] at hi ⊢
    simp only [splitCmds, List.length_map, List.length_range] at hi
    simp [splitCmds, List.getElem?_map, List.getElem?_range, hi, partFilename]
  · rw [partFilename, List.append_assoc, List.append_assoc]
    exact congrArg (fun t => splitextRoot base ++ t) (by decide)
  · rw [partFilename, List.append_assoc, List.append_assoc]
    exact congrArg (fun t => splitextRoot base ++ t) (by decide)

/-- Witness for C8 at a concrete two-part-capable split. -/
theorem c8_part_naming_witness :
    (∀ i : Nat, i < (resultCmds (splitLargeFile "m.mp4".data 16485761
        "My Video.mp4".data 16485760 0 (some 100) (fun _ => true))).length →
      ((resultCmds (splitLargeFile "m.mp4".data 16485761 "My Video.mp4".data
          16485760 0 (some 100) (fun _ => true)))[i]?).map ExtractCmd.outName =
        some (splitextRoot "My Video.mp4".data ++ "_part".data ++
          zfill 2 (natDigits (i + 1)) ++ ".mp4".data)) ∧
    partFilename (splitextRoot "My Video.mp4".data) 0 =
      splitextRoot "My Video.mp4".data ++ "_part01.mp4".data ∧
    partFilename (splitextRoot "My Video.mp4".data) 1 =
      splitextRoot "My Video.mp4".data ++ "_part02.mp4".data :=
  c8_part_naming "m.mp4".data "My Video.mp4".data 16485761 16485760 0 (some 100)
    (fun _ => true) (by decide)

/-- Python str.strip default whitespace (ASCII subset). -/
def isPySpace (c : Char) : Bool :=
  (c == ' ') || (c == '\t') || (c == '\n') || (c == '\r') ||
    (c == '\x0b') || (c == '\x0c')

/-- Python str.strip: remove leading and trailing whitespace. -/
def pyStrip (s : List Char) : List Char :=
  ((s.dropWhile isPySpace).reverse.dropWhile isPySpace).reverse

/-- The filesystem-unsafe characters of the regex in helpers.py line 30. -/
def badChars : List Char :=
  ['<', '>', ':', '\"', '/', '\\', '|', '?', '*']

/-- One character of re.sub applied with the class of badChars. -/
def sanitizeChar (c : Char) : Char := if c ∈ badChars then '_' else c

/-- ASCII lowering, modelling str.lower on the names this code handles. -/
def asciiLower (c : Char) : Char :=
  if 'A' ≤ c ∧ c ≤ 'Z' then Char.ofNat (c.toNat + 32) else c

/-- Python text.split(sep, 1): the part before the first separator and the
part after it. -/
def splitOnce (sep : Char) (s : List Char) : List Char × List Char :=
  (s.takeWhile (fun c => c != sep), (s.dropWhile (fun c => c != sep)).drop 1)

/-- The local time datetime.now() observed by the parser. -/
structure PyDateTime where
  year : Nat
  month : Nat
  day : Nat
  hour : Nat
  minute : Nat
  second : Nat
deriving DecidableEq

/-- strftime of the format string in helpers.py line 39: four-digit year,
two-digit month, day, then an underscore and two-digit hour, minute,
second. -/
def strftimeYmdHMS (t : PyDateTime) : List Char :=
  zfill 4 (natDigits t.year) ++ zfill 2 (natDigits t.month) ++
    zfill 2 (natDigits t.day) ++ "_".data ++ zfill 2 (natDigits t.hour) ++
    zfill 2 (natDigits t.minute) ++ zfill 2 (natDigits t.second)

/-- Embedding of parse_url_and_filename (helpers.py 14-40, duplicated in
bot.py 45-63): with a pipe, split once at it, strip both halves, replace
the unsafe characters of the name by underscores and append .mp4 unless
the lowered name already ends in .mp4; without a pipe, strip the text and
derive the name video_(timestamp).mp4 from the current time. -/
def parse_url_and_filename (text : List Char) (now : PyDateTime) :
    List Char × List Char :=
  if text.contains '|' then
    let pr := splitOnce '|' text
    let url := pyStrip pr.1
    let fn0 := pyStrip pr.2
    let fn1 := fn0.map sanitizeChar
    let fn2 := if ".mp4".data.isSuffixOf (fn1.map asciiLower) then fn1
      else fn1 ++ ".mp4".data
    (url, fn2)
  else
    (pyStrip text, "video_".data ++ strftimeYmdHMS now ++ ".mp4".data)

/-- The output base name as the spec describes it: every character of the
unsafe set replaced by an underscore, and the container extension appended
unless the name already ends with it case-insensitively. -/
def specSanitizedName (raw : List Char) : List Char :=
  let cleaned := raw.map sanitizeChar
  if ".mp4".data.isSuffixOf (cleaned.map asciiLower) then cleaned
  else cleaned ++ ".mp4".data

/-- C9: parse_url_and_filename returns, for input containing a pipe, the
stripped text before the first pipe as URL and the stripped text after it
sanitised (unsafe characters to underscores, .mp4 appended unless already
present case-insensitively) as name — so the example input yields the name
My Video.mp4 — and, for input without a pipe, the stripped input as URL
with the timestamp-derived name video_(YYYYMMDD_HHMMSS).mp4. -/
theorem c9_parse (text : List Char) (now : PyDateTime) :
    (text.contains '|' = true →
      parse_url_and_filename text now =
        (pyStrip (text.takeWhile (fun c => c != '|')),
         specSanitizedName (pyStrip ((text.dropWhile (fun c => c != '|')).drop 1)))) ∧
    (text.contains '|' = false →
      parse_url_and_filename text now =
        (pyStrip text, "video_".data ++ strftimeYmdHMS now ++ ".mp4".data)) ∧
    parse_url_and_filename "https://h/p.m3u8|My Video".data now =
      ("https://h/p.m3u8".data, "My Video.mp4".data) := by
  refine ⟨?_, ?_, rfl⟩
  · intro h
    have hmem : '|' ∈ text := by simpa using h
    simp [parse_url_and_filename, hmem, splitOnce, specSanitizedName]
  · intro h
    have hmem : '|' ∉ text := by simpa using h
    simp [parse_url_and_filename, hmem]

/-- Witness for C9 on the spec example and a pipe-free input. -/
theorem c9_parse_witness :
    parse_url_and_filename "https://h/p.m3u8|My Video".data ⟨2024, 5, 6, 7, 8, 9⟩ =
      (pyStrip ("https://h/p.m3u8|My Video".data.takeWhile (fun c => c != '|')),
       specSanitizedName (pyStrip (("https://h/p.m3u8|My Video".data.dropWhile
         (fun c => c != '|')).drop 1))) ∧
    parse_url_and_filename "  https://h/q.m3u8 ".data ⟨2024, 5, 6, 7, 8, 9⟩ =
      (pyStrip "  https://h/q.m3u8 ".data,
       "video_".data ++ strftimeYmdHMS ⟨2024, 5, 6, 7, 8, 9⟩ ++ ".mp4".data) :=
  ⟨(c9_parse "https://h/p.m3u8|My Video".data ⟨2024, 5, 6, 7, 8, 9⟩).1 (by decide),
   (c9_parse "  https://h/q.m3u8 ".data ⟨2024, 5, 6, 7, 8, 9⟩).2.1 (by decide)⟩
